import Mathlib

/-!
Verification of the `dom-tools` helper library (`src/lib/index.js`).

The development shallowly embeds the functions the claims are about:

* `loadStylesheetCSSInWebview` (lines 173-267): the stylesheet injection
  routine, modelled as a pure function over the remote document's
  `dataset.injectedstylesheets` attribute, a file-stream trace, and an
  environment providing the CSS minifier, the `insertCSS` outcome and the
  platform line terminator.  The external JavaScript primitives it calls
  (`JSON.parse` / `JSON.stringify` on the registry, and the evaluation of
  the single-quoted string literal built for `executeJavaScript`) are
  embedded as executable Lean functions below.
* `didScrollIntoViewport` (lines 309-326), over rational viewport data.
* `formatDuration` (lines 333-340).
* `addClassList` / `removeClassList` (lines 86-94, 141-149).
* `remove` (lines 365-375).
-/

set_option autoImplicit false

namespace DomTools

/-! ## JSON and JavaScript string-literal primitives

The injection routine round-trips the registry through `JSON.parse` and
`JSON.stringify`, and writes it back by interpolating the JSON text into a
single-quoted JavaScript string literal executed in the webview.  These
host-environment primitives are embedded here, restricted to the registry's
documented value space: JSON arrays of strings. -/

/-- Lower-case hexadecimal digit character for `n < 16`. -/
def hexChar (n : Nat) : Char :=
  if n < 10 then Char.ofNat (n + 48) else Char.ofNat (n + 87)

/-- Numeric value of a hexadecimal digit character. -/
def hexDigitVal (c : Char) : Option Nat :=
  if '0' ≤ c ∧ c ≤ '9' then some (c.toNat - 48)
  else if 'a' ≤ c ∧ c ≤ 'f' then some (c.toNat - 87)
  else if 'A' ≤ c ∧ c ≤ 'F' then some (c.toNat - 55)
  else none

/-- JSON insignificant whitespace. -/
def isJsonWS (c : Char) : Bool :=
  c = ' ' ∨ c = '\n' ∨ c = '\t' ∨ c = '\r'

/-- Escaping performed by `JSON.stringify` on one character of a string
value: characters at or above U+0020 other than `"` and `\` are emitted
verbatim, the rest via the standard JSON escapes. -/
def jsonEscapeChar (c : Char) : List Char :=
  if 32 ≤ c.toNat ∧ c ≠ '"' ∧ c ≠ '\\' then [c]
  else if c = '"' then ['\\', '"']
  else if c = '\\' then ['\\', '\\']
  else if c = '\n' then ['\\', 'n']
  else if c = '\r' then ['\\', 'r']
  else if c = '\t' then ['\\', 't']
  else if c.toNat = 8 then ['\\', 'b']
  else if c.toNat = 12 then ['\\', 'f']
  else ['\\', 'u', '0', '0', hexChar (c.toNat / 16), hexChar (c.toNat % 16)]

/-- Characters of `JSON.stringify` applied to one string value. -/
def jsonQuoteChars (s : String) : List Char :=
  '"' :: s.data.flatMap jsonEscapeChar ++ ['"']

/-- Characters between the brackets of `JSON.stringify` applied to an array
of strings (elements separated by a bare comma, as in JavaScript). -/
def jsonBodyChars : List String → List Char
  | [] => []
  | [p] => jsonQuoteChars p
  | p :: q :: ps => jsonQuoteChars p ++ ',' :: jsonBodyChars (q :: ps)

/-- Embeds `JSON.stringify` on an array of strings. -/
def jsonStringifyArr (l : List String) : String :=
  String.mk ('[' :: jsonBodyChars l ++ [']'])

/-- Scanner state for the JSON string-array reader. -/
inductive JState where
  | start
  | expectFirst (acc : List String)
  | inStr (acc : List String) (cur : List Char)
  | esc (acc : List String) (cur : List Char)
  | escU (acc : List String) (cur : List Char) (val : Nat) (k : Nat)
  | afterVal (acc : List String)
  | expectNext (acc : List String)
  | done (acc : List String)

/-- One character of strict JSON parsing for an array of strings: raw
control characters inside strings are rejected, the standard escapes
(including `\uXXXX`) are processed, trailing commas are rejected. -/
def jsonStep : JState → Char → Option JState
  | JState.start, c =>
      if isJsonWS c then some JState.start
      else if c = '[' then some (JState.expectFirst [])
      else none
  | JState.expectFirst acc, c =>
      if isJsonWS c then some (JState.expectFirst acc)
      else if c = '"' then some (JState.inStr acc [])
      else if c = ']' then some (JState.done acc)
      else none
  | JState.inStr acc cur, c =>
      if c = '"' then some (JState.afterVal (acc ++ [String.mk cur]))
      else if c = '\\' then some (JState.esc acc cur)
      else if c.toNat < 32 then none
      else some (JState.inStr acc (cur ++ [c]))
  | JState.esc acc cur, c =>
      if c = '"' then some (JState.inStr acc (cur ++ ['"']))
      else if c = '\\' then some (JState.inStr acc (cur ++ ['\\']))
      else if c = '/' then some (JState.inStr acc (cur ++ ['/']))
      else if c = 'b' then some (JState.inStr acc (cur ++ [Char.ofNat 8]))
      else if c = 'f' then some (JState.inStr acc (cur ++ [Char.ofNat 12]))
      else if c = 'n' then some (JState.inStr acc (cur ++ ['\n']))
      else if c = 'r' then some (JState.inStr acc (cur ++ ['\r']))
      else if c = 't' then some (JState.inStr acc (cur ++ ['\t']))
      else if c = 'u' then some (JState.escU acc cur 0 0)
      else none
  | JState.escU acc cur v k, c =>
      match hexDigitVal c with
      | none => none
      | some d =>
          if k = 3 then some (JState.inStr acc (cur ++ [Char.ofNat (v * 16 + d)]))
          else some (JState.escU acc cur (v * 16 + d) (k + 1))
  | JState.afterVal acc, c =>
      if isJsonWS c then some (JState.afterVal acc)
      else if c = ',' then some (JState.expectNext acc)
      else if c = ']' then some (JState.done acc)
      else none
  | JState.expectNext acc, c =>
      if isJsonWS c then some (JState.expectNext acc)
      else if c = '"' then some (JState.inStr acc [])
      else none
  | JState.done acc, c =>
      if isJsonWS c then some (JState.done acc) else none

/-- Result extraction at end of input. -/
def jsonFinish : JState → Option (List String)
  | JState.done acc => some acc
  | _ => none

/-- Run the scanner over the remaining input. -/
def jsonRun : JState → List Char → Option (List String)
  | st, [] => jsonFinish st
  | st, c :: rest =>
      match jsonStep st c with
      | none => none
      | some st2 => jsonRun st2 rest

/-- Embeds `JSON.parse` restricted to the registry's documented value space
(JSON arrays of strings; spec section 6).  A successful `JSON.parse` whose
result is not an array would make the source's subsequent array operations
throw into the same promise `catch` that reports the parse failure, so both
are modelled as `none`. -/
def jsonParseStringArr (s : String) : Option (List String) :=
  jsonRun JState.start s.data

/-- Scanner state for evaluating the body of a JavaScript single-quoted
string literal. -/
inductive LState where
  | norm (acc : List Char)
  | esc (acc : List Char)
  | escU (acc : List Char) (v : Nat) (k : Nat)
  | escX (acc : List Char) (v : Nat) (k : Nat)

/-- One character of JavaScript single-quoted string literal evaluation.
An unescaped `'` or a raw line terminator makes the surrounding
`executeJavaScript` statement a syntax error, modelled as `none`. -/
def jsLitStep : LState → Char → Option LState
  | LState.norm acc, c =>
      if c = '\'' then none
      else if c = '\n' ∨ c = '\r' then none
      else if c = '\\' then some (LState.esc acc)
      else some (LState.norm (acc ++ [c]))
  | LState.esc acc, c =>
      if c = 'n' then some (LState.norm (acc ++ ['\n']))
      else if c = 'r' then some (LState.norm (acc ++ ['\r']))
      else if c = 't' then some (LState.norm (acc ++ ['\t']))
      else if c = 'b' then some (LState.norm (acc ++ [Char.ofNat 8]))
      else if c = 'f' then some (LState.norm (acc ++ [Char.ofNat 12]))
      else if c = 'v' then some (LState.norm (acc ++ [Char.ofNat 11]))
      else if c = '0' then some (LState.norm (acc ++ [Char.ofNat 0]))
      else if c = 'u' then some (LState.escU acc 0 0)
      else if c = 'x' then some (LState.escX acc 0 0)
      else some (LState.norm (acc ++ [c]))
  | LState.escU acc v k, c =>
      match hexDigitVal c with
      | none => none
      | some d =>
          if k = 3 then some (LState.norm (acc ++ [Char.ofNat (v * 16 + d)]))
          else some (LState.escU acc (v * 16 + d) (k + 1))
  | LState.escX acc v k, c =>
      match hexDigitVal c with
      | none => none
      | some d =>
          if k = 1 then some (LState.norm (acc ++ [Char.ofNat (v * 16 + d)]))
          else some (LState.escX acc (v * 16 + d) (k + 1))

/-- Run the literal scanner over the remaining body characters. -/
def jsLitRun : LState → List Char → Option String
  | LState.norm acc, [] => some (String.mk acc)
  | _, [] => none
  | st, c :: rest =>
      match jsLitStep st c with
      | none => none
      | some st2 => jsLitRun st2 rest

/-- Value produced in the webview by the single-quoted string literal whose
body is `s` — the value actually assigned to the registry attribute by
`executeJavaScript` at line 247; `none` when the interpolated text breaks
the literal (syntax error, the promise rejects). -/
def jsSingleQuotedLit (s : String) : Option String :=
  jsLitRun (LState.norm []) s.data

/-! ## The stylesheet injection routine -/

/-- De-duplication via `[ ...new Set(list) ]` (line 244): keeps the first
occurrence of each element, preserving insertion order. -/
def jsSetDedupAux (seen : List String) : List String → List String
  | [] => []
  | x :: xs =>
      if x ∈ seen then jsSetDedupAux seen xs
      else x :: jsSetDedupAux (x :: seen) xs

/-- Embeds `[ ...new Set(list) ]`. -/
def jsSetDedup (l : List String) : List String :=
  jsSetDedupAux [] l

/-- Embeds `cssData += chunk` (line 214) where `cssData` was declared but
never initialized (line 205): in JavaScript, `undefined + chunk` coerces
the accumulator to the string `"undefined"` on the first chunk. -/
def jsStringHoleAppend : Option String → String → Option String
  | none, c => some ("undefined" ++ c)
  | some s, c => some (s ++ c)

/-- Whitespace removed by JavaScript `String.prototype.trim`. -/
def isJsWS (c : Char) : Bool :=
  c = ' ' ∨ c = '\t' ∨ c = '\n' ∨ c = '\r' ∨ c.toNat = 11 ∨ c.toNat = 12

/-- Embeds `String.prototype.trim` (line 230). -/
def jsTrim (s : String) : String :=
  String.mk (((s.data.dropWhile isJsWS).reverse.dropWhile isJsWS).reverse)

/-- External collaborators of one injection run: the CSS minifier
(`clean-css`, returning the minified `styles` text), the outcome of the
webview's `insertCSS` call (`none` = the promise resolves), and `os.EOL`. -/
structure Env where
  minify : String → String
  insertErr : Option String
  eol : String

/-- Side-effecting calls the routine makes, in order. -/
inductive Action where
  | readFile (path : String)
  | minify (text : String)
  | insertCSS (css : String)
  | writeRegistry (val : String)
deriving DecidableEq

/-- Errors the routine can hand to its callback. -/
inductive JSError where
  | parseError (raw : String)
  | alreadyInjected (path : String)
  | streamError (e : String)
  | insertError (e : String)
  | syntaxError
deriving DecidableEq

/-- One callback invocation: `callback(error)` or `callback(null, css)`. -/
inductive CbCall where
  | err (e : JSError)
  | ok (css : String)
deriving DecidableEq

/-- Trace of the file read stream: the `data` chunks delivered, then an
optional `error` event.  The stream is created with `emitClose: true`
(line 208), so the `close` event fires after the stream is destroyed in
both the normal and the error case. -/
structure StreamTrace where
  chunks : List String
  err : Option String

/-- Observable outcome of one injection run: the external calls made, the
callback invocations, the final registry attribute of the remote document,
and whether an event handler threw an uncaught exception. -/
structure RunResult where
  actions : List Action
  callbacks : List CbCall
  attr : Option String
  threw : Bool
deriving DecidableEq

/-- Steps 3-5 of `loadStylesheetCSSInWebview` (lines 204-261): stream the
file, then on `close` trim, append `os.EOL`, minify, `insertCSS`, and
write the updated registry back through a single-quoted string literal.
`list` is the parsed registry the run read; `attr0` the current attribute.
With no `data` event the accumulator is still `undefined` and
`cssData.toString()` at line 230 throws inside the `close` handler. -/
def runStream (env : Env) (attr0 : Option String) (stylesheetPath : String)
    (list : List String) (tr : StreamTrace) : RunResult :=
  let cssData := tr.chunks.foldl jsStringHoleAppend none
  let errCbs : List CbCall :=
    match tr.err with
    | some e => [CbCall.err (JSError.streamError e)]
    | none => []
  match cssData with
  | none =>
      { actions := [Action.readFile stylesheetPath], callbacks := errCbs,
        attr := attr0, threw := true }
  | some data =>
      let cssText := jsTrim data ++ env.eol
      let styles := env.minify cssText
      match env.insertErr with
      | some e =>
          { actions := [Action.readFile stylesheetPath, Action.minify cssText,
                        Action.insertCSS styles],
            callbacks := errCbs ++ [CbCall.err (JSError.insertError e)],
            attr := attr0, threw := false }
      | none =>
          let newList := jsSetDedup (list ++ [stylesheetPath])
          let json := jsonStringifyArr newList
          match jsSingleQuotedLit json with
          | none =>
              { actions := [Action.readFile stylesheetPath, Action.minify cssText,
                            Action.insertCSS styles],
                callbacks := errCbs ++ [CbCall.err JSError.syntaxError],
                attr := attr0, threw := false }
          | some v =>
              { actions := [Action.readFile stylesheetPath, Action.minify cssText,
                            Action.insertCSS styles, Action.writeRegistry v],
                callbacks := errCbs ++ [CbCall.ok styles],
                attr := some v, threw := false }

/-- Embeds `loadStylesheetCSSInWebview` (lines 173-267).  `attr0` is the
remote document's `dataset.injectedstylesheets` attribute (`none` when
absent).  The source's `if (result)` at line 181 treats both an absent
attribute and a present-but-empty one as falsy, skipping the registry
parse and duplicate check. -/
def loadStylesheetCSSInWebview (env : Env) (attr0 : Option String)
    (stylesheetPath : String) (tr : StreamTrace) : RunResult :=
  match attr0 with
  | none => runStream env none stylesheetPath [] tr
  | some raw =>
      if raw = "" then runStream env (some "") stylesheetPath [] tr
      else
        match jsonParseStringArr raw with
        | none =>
            { actions := [], callbacks := [CbCall.err (JSError.parseError raw)],
              attr := some raw, threw := false }
        | some list =>
            if stylesheetPath ∈ list then
              { actions := [],
                callbacks := [CbCall.err (JSError.alreadyInjected stylesheetPath)],
                attr := some raw, threw := false }
            else runStream env (some raw) stylesheetPath list tr

/-- Sequential injections: each run starts from the attribute the previous
run left behind. -/
def injectAll (env : Env) (tr : StreamTrace) :
    Option String → List String → Option String
  | attr0, [] => attr0
  | attr0, p :: ps =>
      injectAll env tr (loadStylesheetCSSInWebview env attr0 p tr).attr ps

/-! ## Viewport intersection check -/

/-- Outcome of `didScrollIntoViewport`: the source returns `undefined` for
an empty list (line 312), throws when the computed index falls outside the
array (`elementList[targetIndex - 1]` is `undefined` and
`getBoundingClientRect` is called on it, line 320), and otherwise returns
the comparison of the element's top edge with the viewport height. -/
inductive ViewportResult where
  | undef
  | threw
  | inView (b : Bool)
deriving DecidableEq

/-- Embeds `didScrollIntoViewport` (lines 309-326) over the `top` values of
the elements' bounding rectangles and the document's `clientHeight`,
modelled with rationals.  The JavaScript defaults are `threshold = 0.75`
and `fixedCount = elementList.length`; the target index is
`Math.floor(length - (1 - threshold) * fixedCount)` (line 317) and the
element at JavaScript index `targetIndex - 1` is inspected. -/
def didScrollIntoViewport (tops : List ℚ) (clientHeight : ℚ)
    (threshold : ℚ) (fixedCount : ℚ) : ViewportResult :=
  if tops.length = 0 then ViewportResult.undef
  else if h : 0 ≤ ⌊(tops.length : ℚ) - (1 - threshold) * fixedCount⌋ - 1 ∧
      (⌊(tops.length : ℚ) - (1 - threshold) * fixedCount⌋ - 1).toNat < tops.length then
    ViewportResult.inView
      (decide (tops.get ⟨(⌊(tops.length : ℚ) - (1 - threshold) * fixedCount⌋ - 1).toNat, h.2⟩
        ≤ clientHeight))
  else ViewportResult.threw

/-- Modelled from the spec: the same check but with the target index
computed as `ceil(length - (1 - threshold) * fixedCount)`, following the
spec's words; kept separate for comparison with the source's
`Math.floor`. -/
def didScrollIntoViewportSpec (tops : List ℚ) (clientHeight : ℚ)
    (threshold : ℚ) (fixedCount : ℚ) : ViewportResult :=
  if tops.length = 0 then ViewportResult.undef
  else if h : 0 ≤ ⌈(tops.length : ℚ) - (1 - threshold) * fixedCount⌉ - 1 ∧
      (⌈(tops.length : ℚ) - (1 - threshold) * fixedCount⌉ - 1).toNat < tops.length then
    ViewportResult.inView
      (decide (tops.get ⟨(⌈(tops.length : ℚ) - (1 - threshold) * fixedCount⌉ - 1).toNat, h.2⟩
        ≤ clientHeight))
  else ViewportResult.threw

/-! ## Duration formatting -/

/-- Two-digit zero padding for the minute and second fields. -/
def pad2 (n : Nat) : String :=
  if n < 10 then "0" ++ toString n else toString n

/-- Embeds the third-party `moment.duration(..).format('h:mm:ss')` call
(moment-duration-format with its default large-token trimming) for a
duration of `totalSeconds` whole seconds: zero-valued leading tokens are
trimmed away and the largest remaining token loses its padding, so a zero
duration renders as `"0"`. -/
def momentFormatHMMSS (totalSeconds : Nat) : String :=
  let h := totalSeconds / 3600
  let m := totalSeconds % 3600 / 60
  let s := totalSeconds % 60
  if h ≠ 0 then toString h ++ ":" ++ pad2 m ++ ":" ++ pad2 s
  else if m ≠ 0 then toString m ++ ":" ++ pad2 s
  else toString s

/-- Embeds `formatDuration` (lines 333-340) for a duration of
`totalSeconds` whole seconds: the moment rendering, with the string `"0"`
replaced by the infinity symbol. -/
def formatDuration (totalSeconds : Nat) : String :=
  let duration := momentFormatHMMSS totalSeconds
  if duration = "0" then "∞" else duration

/-! ## Class-list helpers -/

/-- A DOM element, reduced to the state the class-list helpers touch: an
identity and the `class` attribute's token list. -/
structure DomElement where
  id : Nat
  classes : List String
deriving DecidableEq

/-- `DOMTokenList.add(...tokens)`: appends each token not already
present. -/
def classListAdd (classes : List String) (tokens : List String) : List String :=
  tokens.foldl (fun cs t => if t ∈ cs then cs else cs ++ [t]) classes

/-- `DOMTokenList.remove(...tokens)`: removes every occurrence of each
token. -/
def classListRemove (classes : List String) (tokens : List String) : List String :=
  tokens.foldl (fun cs t => cs.filter (fun x => x ≠ t)) classes

/-- Embeds `addClassList` (lines 86-94): `matches` stands for membership in
`document.querySelectorAll(selector)`; every matched element gets the
classes added.  The source's `classList` parameter defaults to `[]`. -/
def addClassList (sel : DomElement → Bool) (classList : List String)
    (doc : List DomElement) : List DomElement :=
  doc.map (fun e => if sel e then { e with classes := classListAdd e.classes classList } else e)

/-- Embeds `removeClassList` (lines 141-149), the removal counterpart. -/
def removeClassList (sel : DomElement → Bool) (classList : List String)
    (doc : List DomElement) : List DomElement :=
  doc.map (fun e => if sel e then { e with classes := classListRemove e.classes classList } else e)

/-! ## Deferred element removal -/

/-- Embeds `remove` (lines 365-375) at the moment its `setTimeout` body
fires after `delay` milliseconds.  The body touches only
`element.parentNode` and that parent's child list, so the document state
is narrowed to `parentChildren`: the children of the element's parent, or
`none` when the element has no parent (then the body does nothing).  With
a parent, `removeChild(element)` detaches the element — the unique child
node with its identity — from the child list. -/
def remove (element : Nat) (delay : Nat) (parentChildren : Option (List Nat)) :
    Option (List Nat) :=
  match delay, parentChildren with
  | _, none => none
  | _, some cs => some (cs.erase element)

/-! ## Helper lemmas: JSON round-trip for safe paths -/

theorem mk_data (s : String) : String.mk s.data = s := rfl

/-- Characters that pass unchanged through `JSON.stringify`, the
single-quoted literal, and `JSON.parse`: printable characters other than
the double quote, the backslash and the single quote. -/
def JsSafeChar (c : Char) : Prop :=
  32 ≤ c.toNat ∧ c ≠ '"' ∧ c ≠ '\\' ∧ c ≠ '\''

instance (c : Char) : Decidable (JsSafeChar c) := by
  unfold JsSafeChar; infer_instance

/-- Strings all of whose characters are safe. -/
def JsSafeStr (s : String) : Prop :=
  ∀ c ∈ s.data, JsSafeChar c

instance (s : String) : Decidable (JsSafeStr s) := by
  unfold JsSafeStr; infer_instance

theorem jsonEscapeChar_safe {c : Char} (h : JsSafeChar c) : jsonEscapeChar c = [c] := by
  unfold jsonEscapeChar
  rw [if_pos ⟨h.1, h.2.1, h.2.2.1⟩]

theorem flatMap_escape_id {cs : List Char} (h : ∀ c ∈ cs, JsSafeChar c) :
    cs.flatMap jsonEscapeChar = cs := by
  induction cs with
  | nil => rfl
  | cons c cs ih =>
      have hc : JsSafeChar c := h c (by simp)
      have hcs : ∀ x ∈ cs, JsSafeChar x := fun x hx => h x (by simp [hx])
      simp [jsonEscapeChar_safe hc, ih hcs]

theorem jsonQuoteChars_safe {p : String} (hp : JsSafeStr p) :
    jsonQuoteChars p = '"' :: p.data ++ ['"'] := by
  unfold jsonQuoteChars
  rw [flatMap_escape_id hp]

/-- Iterated scanner steps without result extraction. -/
def jsonSteps : JState → List Char → Option JState
  | st, [] => some st
  | st, c :: rest =>
      match jsonStep st c with
      | none => none
      | some st2 => jsonSteps st2 rest

theorem jsonSteps_append {xs : List Char} : ∀ {st st2 : JState} (ys : List Char),
    jsonSteps st xs = some st2 → jsonSteps st (xs ++ ys) = jsonSteps st2 ys := by
  induction xs with
  | nil =>
      intro st st2 ys h
      simp only [jsonSteps, Option.some.injEq] at h
      subst h
      rfl
  | cons c xs ih =>
      intro st st2 ys h
      cases hc : jsonStep st c with
      | none =>
          simp only [jsonSteps, hc] at h
          exact Option.noConfusion h
      | some st1 =>
          simp only [jsonSteps, hc] at h
          simp only [List.cons_append, jsonSteps, hc]
          exact ih ys h

theorem jsonRun_of_steps {xs : List Char} : ∀ {st st2 : JState} (ys : List Char),
    jsonSteps st xs = some st2 → jsonRun st (xs ++ ys) = jsonRun st2 ys := by
  induction xs with
  | nil =>
      intro st st2 ys h
      simp only [jsonSteps, Option.some.injEq] at h
      subst h
      rfl
  | cons c xs ih =>
      intro st st2 ys h
      cases hc : jsonStep st c with
      | none =>
          simp only [jsonSteps, hc] at h
          exact Option.noConfusion h
      | some st1 =>
          simp only [jsonSteps, hc] at h
          simp only [List.cons_append, jsonRun, hc]
          exact ih ys h

theorem jsonSteps_inStr {cs : List Char} (h : ∀ c ∈ cs, JsSafeChar c) :
    ∀ (acc : List String) (cur : List Char),
    jsonSteps (JState.inStr acc cur) cs = some (JState.inStr acc (cur ++ cs)) := by
  induction cs with
  | nil => intro acc cur; simp [jsonSteps]
  | cons c cs ih =>
      intro acc cur
      have hc : JsSafeChar c := h c (by simp)
      have h32 : ¬ c.toNat < 32 := Nat.not_lt.mpr hc.1
      have hstep : jsonStep (JState.inStr acc cur) c = some (JState.inStr acc (cur ++ [c])) := by
        simp only [jsonStep]
        rw [if_neg hc.2.1, if_neg hc.2.2.1, if_neg h32]
      simp only [jsonSteps, hstep]
      rw [ih (fun x hx => h x (by simp [hx])) acc (cur ++ [c])]
      simp

theorem jsonSteps_quote {p : String} (hp : JsSafeStr p) (acc : List String)
    {st : JState} (hst : st = JState.expectFirst acc ∨ st = JState.expectNext acc) :
    jsonSteps st (jsonQuoteChars p) = some (JState.afterVal (acc ++ [p])) := by
  rw [jsonQuoteChars_safe hp]
  have hq : jsonStep st '"' = some (JState.inStr acc []) := by
    rcases hst with h | h <;> subst h <;> simp [jsonStep, isJsonWS]
  show jsonSteps st ('"' :: (p.data ++ ['"'])) = _
  simp only [jsonSteps, hq]
  rw [jsonSteps_append ['"'] (jsonSteps_inStr hp acc [])]
  simp [jsonSteps, jsonStep, mk_data]

theorem jsonRun_body : ∀ (l : List String), l ≠ [] → (∀ p ∈ l, JsSafeStr p) →
    ∀ (acc : List String) (st : JState),
    (st = JState.expectFirst acc ∨ st = JState.expectNext acc) →
    jsonRun st (jsonBodyChars l ++ [']']) = some (acc ++ l) := by
  intro l
  induction l with
  | nil => intro h; exact absurd rfl h
  | cons p ps ih =>
      intro _ hsafe acc st hst
      have hp : JsSafeStr p := hsafe p (by simp)
      cases ps with
      | nil =>
          show jsonRun st (jsonQuoteChars p ++ [']']) = _
          rw [jsonRun_of_steps [']'] (jsonSteps_quote hp acc hst)]
          simp [jsonRun, jsonStep, jsonFinish, isJsonWS]
      | cons q ps' =>
          show jsonRun st ((jsonQuoteChars p ++ ',' :: jsonBodyChars (q :: ps')) ++ [']']) = _
          rw [List.append_assoc]
          rw [jsonRun_of_steps (',' :: jsonBodyChars (q :: ps') ++ [']'])
            (jsonSteps_quote hp acc hst)]
          have hcomma : jsonStep (JState.afterVal (acc ++ [p])) ',' =
              some (JState.expectNext (acc ++ [p])) := by
            simp [jsonStep, isJsonWS]
          simp only [List.cons_append, jsonRun, hcomma, List.append_eq]
          rw [ih (by simp) (fun x hx => hsafe x (by simp [hx])) (acc ++ [p])
            (JState.expectNext (acc ++ [p])) (Or.inr rfl)]
          simp

theorem jsonParse_stringify {l : List String} (h : ∀ p ∈ l, JsSafeStr p) :
    jsonParseStringArr (jsonStringifyArr l) = some l := by
  show jsonRun JState.start ('[' :: jsonBodyChars l ++ [']']) = some l
  have hopen : jsonStep JState.start '[' = some (JState.expectFirst []) := by
    simp [jsonStep, isJsonWS]
  simp only [List.cons_append, jsonRun, hopen, List.append_eq]
  cases l with
  | nil => simp [jsonBodyChars, jsonRun, jsonStep, jsonFinish, isJsonWS]
  | cons p ps =>
      rw [jsonRun_body (p :: ps) (by simp) h [] (JState.expectFirst []) (Or.inl rfl)]
      simp

/-! ## Helper lemmas: single-quoted literal, dedup, stream accumulator -/

/-- Characters that survive a JavaScript single-quoted string literal
verbatim. -/
def LitSafeChar (c : Char) : Prop :=
  c ≠ '\'' ∧ c ≠ '\\' ∧ c ≠ '\n' ∧ c ≠ '\r'

instance (c : Char) : Decidable (LitSafeChar c) := by
  unfold LitSafeChar; infer_instance

theorem jsSafeChar_litSafe {c : Char} (h : JsSafeChar c) : LitSafeChar c := by
  refine ⟨h.2.2.2, h.2.2.1, ?_, ?_⟩ <;>
    · intro he
      subst he
      exact absurd h.1 (by decide)

theorem jsLitRun_safe {cs : List Char} (h : ∀ c ∈ cs, LitSafeChar c) :
    ∀ acc : List Char, jsLitRun (LState.norm acc) cs = some (String.mk (acc ++ cs)) := by
  induction cs with
  | nil => intro acc; simp [jsLitRun]
  | cons c cs ih =>
      intro acc
      have hc : LitSafeChar c := h c (by simp)
      have hnr : ¬ (c = '\n' ∨ c = '\r') := by
        rintro (he | he) <;> [exact hc.2.2.1 he; exact hc.2.2.2 he]
      have hstep : jsLitStep (LState.norm acc) c = some (LState.norm (acc ++ [c])) := by
        simp only [jsLitStep]
        rw [if_neg hc.1, if_neg hnr, if_neg hc.2.1]
      simp only [jsLitRun, hstep]
      rw [ih (fun x hx => h x (by simp [hx])) (acc ++ [c])]
      simp

theorem quoteChars_litSafe {p : String} (hp : JsSafeStr p) :
    ∀ c ∈ jsonQuoteChars p, LitSafeChar c := by
  rw [jsonQuoteChars_safe hp]
  intro c hc
  simp at hc
  rcases hc with h | h | h
  · subst h; decide
  · exact jsSafeChar_litSafe (hp c h)
  · subst h; decide

theorem bodyChars_litSafe : ∀ (l : List String), (∀ p ∈ l, JsSafeStr p) →
    ∀ c ∈ jsonBodyChars l, LitSafeChar c := by
  intro l
  induction l with
  | nil => intro _ c hc; simp [jsonBodyChars] at hc
  | cons p ps ih =>
      intro hsafe c hc
      have hp : JsSafeStr p := hsafe p (by simp)
      cases ps with
      | nil => exact quoteChars_litSafe hp c hc
      | cons q ps' =>
          simp only [jsonBodyChars, List.mem_append, List.mem_cons] at hc
          rcases hc with h | h | h
          · exact quoteChars_litSafe hp c h
          · subst h; decide
          · exact ih (fun x hx => hsafe x (by simp [hx])) c h

theorem stringify_lit_id {l : List String} (h : ∀ p ∈ l, JsSafeStr p) :
    jsSingleQuotedLit (jsonStringifyArr l) = some (jsonStringifyArr l) := by
  show jsLitRun (LState.norm []) ('[' :: jsonBodyChars l ++ [']']) = _
  rw [jsLitRun_safe ?hsafe []]
  case hsafe =>
    intro c hc
    simp at hc
    rcases hc with h1 | h1 | h1
    · subst h1; decide
    · exact bodyChars_litSafe l h c h1
    · subst h1; decide
  rfl

theorem jsSetDedupAux_id : ∀ (l seen : List String), l.Nodup →
    (∀ x ∈ l, x ∉ seen) → jsSetDedupAux seen l = l := by
  intro l
  induction l with
  | nil => intro seen _ _; rfl
  | cons x xs ih =>
      intro seen hnd hdis
      have hx : x ∉ seen := hdis x (by simp)
      simp only [jsSetDedupAux, if_neg hx]
      rw [ih (x :: seen) hnd.of_cons]
      intro y hy
      simp only [List.mem_cons, not_or]
      exact ⟨fun he => (List.nodup_cons.mp hnd).1 (he ▸ hy), hdis y (by simp [hy])⟩

theorem jsSetDedup_id {l : List String} (h : l.Nodup) : jsSetDedup l = l :=
  jsSetDedupAux_id l [] h (by simp)

theorem foldl_hole_some : ∀ (cs : List String) (s : String),
    ∃ d, cs.foldl jsStringHoleAppend (some s) = some d := by
  intro cs
  induction cs with
  | nil => intro s; exact ⟨s, rfl⟩
  | cons c cs ih => intro s; simpa [jsStringHoleAppend] using ih (s ++ c)

theorem foldl_hole_ne_nil {cs : List String} (h : cs ≠ []) :
    ∃ d, cs.foldl jsStringHoleAppend none = some d := by
  cases cs with
  | nil => exact absurd rfl h
  | cons c cs => simpa [jsStringHoleAppend] using foldl_hole_some cs ("undefined" ++ c)

theorem jsonStringifyArr_ne_empty (l : List String) : jsonStringifyArr l ≠ "" := by
  intro h
  have hd : (jsonStringifyArr l).data = "".data := congrArg String.data h
  simp [jsonStringifyArr] at hd

/-! ## Helper lemmas: a successful injection run -/

theorem runStream_success (env : Env) (tr : StreamTrace) (cur : List String)
    (p : String) (attr0 : Option String)
    (hins : env.insertErr = none) (hch : tr.chunks ≠ []) (herr : tr.err = none)
    (hsafe : ∀ q ∈ cur, JsSafeStr q) (hp : JsSafeStr p) (hmem : p ∉ cur)
    (hnd : cur.Nodup) :
    ∃ css, runStream env attr0 p cur tr =
      { actions := [Action.readFile p, Action.minify css,
                    Action.insertCSS (env.minify css),
                    Action.writeRegistry (jsonStringifyArr (cur ++ [p]))],
        callbacks := [CbCall.ok (env.minify css)],
        attr := some (jsonStringifyArr (cur ++ [p])), threw := false } := by
  obtain ⟨d, hd⟩ := foldl_hole_ne_nil hch
  have hndApp : (cur ++ [p]).Nodup := by
    simp [List.nodup_append, hnd, hmem]
  have hsafeApp : ∀ q ∈ cur ++ [p], JsSafeStr q := by
    intro q hq
    rcases List.mem_append.mp hq with h | h
    · exact hsafe q h
    · rw [List.mem_singleton.mp h]; exact hp
  have hded : jsSetDedup (cur ++ [p]) = cur ++ [p] := jsSetDedup_id hndApp
  have hlit := stringify_lit_id hsafeApp
  refine ⟨jsTrim d ++ env.eol, ?_⟩
  simp only [runStream, herr, hd, hins, hded, hlit, List.nil_append]

theorem load_success (env : Env) (tr : StreamTrace) (cur : List String)
    (p : String) (attr0 : Option String)
    (hins : env.insertErr = none) (hch : tr.chunks ≠ []) (herr : tr.err = none)
    (hattr : (attr0 = none ∧ cur = []) ∨ attr0 = some (jsonStringifyArr cur))
    (hsafe : ∀ q ∈ cur, JsSafeStr q) (hp : JsSafeStr p) (hmem : p ∉ cur)
    (hnd : cur.Nodup) :
    ∃ css, loadStylesheetCSSInWebview env attr0 p tr =
      { actions := [Action.readFile p, Action.minify css,
                    Action.insertCSS (env.minify css),
                    Action.writeRegistry (jsonStringifyArr (cur ++ [p]))],
        callbacks := [CbCall.ok (env.minify css)],
        attr := some (jsonStringifyArr (cur ++ [p])), threw := false } := by
  rcases hattr with ⟨h0, hc⟩ | h0
  · subst h0
    subst hc
    exact runStream_success env tr [] p none hins hch herr (by simp) hp (by simp) (by simp)
  · subst h0
    have hne := jsonStringifyArr_ne_empty cur
    have hparse := jsonParse_stringify hsafe
    simp only [loadStylesheetCSSInWebview, if_neg hne, hparse, if_neg hmem]
    exact runStream_success env tr cur p (some (jsonStringifyArr cur)) hins hch herr hsafe hp hmem hnd

theorem injectAll_attr : ∀ (paths : List String) (env : Env) (tr : StreamTrace)
    (cur : List String) (attr0 : Option String),
    env.insertErr = none → tr.chunks ≠ [] → tr.err = none →
    ((attr0 = none ∧ cur = []) ∨ attr0 = some (jsonStringifyArr cur)) →
    (∀ q ∈ cur, JsSafeStr q) → (∀ p ∈ paths, JsSafeStr p) →
    (cur ++ paths).Nodup → paths ≠ [] →
    injectAll env tr attr0 paths = some (jsonStringifyArr (cur ++ paths)) := by
  intro paths
  induction paths with
  | nil =>
      intro env tr cur attr0 _ _ _ _ _ _ _ hne
      exact absurd rfl hne
  | cons p ps ih =>
      intro env tr cur attr0 hins hch herr hattr hsafeCur hsafeP hnd _
      have hndCur : cur.Nodup := (List.nodup_append.mp hnd).1
      have hmem : p ∉ cur := by
        intro hm
        exact (List.nodup_append.mp hnd).2.2 hm (by simp)
      obtain ⟨css, hrun⟩ := load_success env tr cur p attr0 hins hch herr hattr
        hsafeCur (hsafeP p (by simp)) hmem hndCur
      have hrw : (cur ++ [p]) ++ ps = cur ++ p :: ps := by simp
      cases ps with
      | nil =>
          simp only [injectAll, hrun]
      | cons q ps' =>
          have := ih env tr (cur ++ [p]) (some (jsonStringifyArr (cur ++ [p])))
            hins hch herr (Or.inr rfl)
            (by
              intro x hx
              rcases List.mem_append.mp hx with h | h
              · exact hsafeCur x h
              · rw [List.mem_singleton.mp h]; exact hsafeP p (by simp))
            (fun x hx => hsafeP x (by simp [hx]))
            (by rw [hrw]; exact hnd)
            (by simp)
          show injectAll env tr (loadStylesheetCSSInWebview env attr0 p tr).attr (q :: ps') = _
          rw [hrun, ← hrw]
          exact this

/-! ## Claim theorems -/

/-- C1: for any stylesheet path already present in the registry read back
in step 1 (attribute present, non-empty, parsing as a JSON array that
contains the path), `loadStylesheetCSSInWebview` fails immediately: the
callback is invoked exactly once with the "already injected" error, no
file read, no minifier call and no `insertCSS` call is performed, and the
registry attribute is unchanged. -/
theorem c1_already_injected_guard (env : Env) (tr : StreamTrace)
    (s p : String) (list : List String)
    (hne : s ≠ "") (hparse : jsonParseStringArr s = some list) (hmem : p ∈ list) :
    loadStylesheetCSSInWebview env (some s) p tr =
      { actions := [], callbacks := [CbCall.err (JSError.alreadyInjected p)],
        attr := some s, threw := false } := by
  simp only [loadStylesheetCSSInWebview, if_neg hne, hparse, if_pos hmem]

/-- Witness for C1: the guard fires on a concrete one-element registry. -/
theorem c1_already_injected_guard_witness :
    (("[\"p\"]" : String) ≠ "" ∧ jsonParseStringArr "[\"p\"]" = some ["p"] ∧
      "p" ∈ (["p"] : List String)) ∧
    loadStylesheetCSSInWebview ⟨fun s => s, none, "\n"⟩ (some "[\"p\"]") "p" ⟨["x"], none⟩ =
      { actions := [], callbacks := [CbCall.err (JSError.alreadyInjected "p")],
        attr := some "[\"p\"]", threw := false } :=
  ⟨⟨by decide, by decide, by decide⟩,
   c1_already_injected_guard ⟨fun s => s, none, "\n"⟩ ⟨["x"], none⟩ "[\"p\"]" "p" ["p"]
     (by decide) (by decide) (by decide)⟩

/-- C2 (code bug): the accumulator `cssData` is declared but never
initialized, so the first `cssData += chunk` coerces `undefined` to the
string `"undefined"`.  At a run whose stream yields the single chunk
`"body-css"`, the text handed to the minifier is
`"undefinedbody-css\n"`, not the trimmed chunk concatenation
`"body-css\n"` the claim describes. -/
theorem c2_minifier_input_undefined_prefix :
    (loadStylesheetCSSInWebview ⟨fun s => s, none, "\n"⟩ none "style.css"
        ⟨["body-css"], none⟩).actions =
      [Action.readFile "style.css", Action.minify "undefinedbody-css\n",
       Action.insertCSS "undefinedbody-css\n", Action.writeRegistry "[\"style.css\"]"] ∧
    Action.minify "body-css\n" ∉
      (loadStylesheetCSSInWebview ⟨fun s => s, none, "\n"⟩ none "style.css"
        ⟨["body-css"], none⟩).actions := by
  decide

/-- C3 (code bug): on a stream error the callback is invoked with the
error, but because the stream was created with `emitClose: true` the
`close` handler still fires afterwards: the minifier runs, `insertCSS` is
called with the partial buffer, the registry is updated, and the callback
is invoked a second time with success. -/
theorem c3_stream_error_still_injects :
    (loadStylesheetCSSInWebview ⟨fun s => s, none, "\n"⟩ none "p"
        ⟨["a"], some "EIO"⟩).callbacks =
      [CbCall.err (JSError.streamError "EIO"), CbCall.ok "undefineda\n"] ∧
    Action.insertCSS "undefineda\n" ∈
      (loadStylesheetCSSInWebview ⟨fun s => s, none, "\n"⟩ none "p"
        ⟨["a"], some "EIO"⟩).actions ∧
    (loadStylesheetCSSInWebview ⟨fun s => s, none, "\n"⟩ none "p"
        ⟨["a"], some "EIO"⟩).attr = some "[\"p\"]" := by
  decide

/-- Counterexample to C4 as stated: an attribute that is present with the
empty string as content is not parseable as JSON (`JSON.parse("")`
throws), yet the source's `if (result)` treats it as falsy, so the
injection proceeds to the file read and succeeds instead of failing with a
parse error. -/
theorem c4_empty_attr_counterexample :
    jsonParseStringArr "" = none ∧
    (loadStylesheetCSSInWebview ⟨fun s => s, none, "\n"⟩ (some "") "p" ⟨["x"], none⟩).actions =
      [Action.readFile "p", Action.minify "undefinedx\n", Action.insertCSS "undefinedx\n",
       Action.writeRegistry "[\"p\"]"] ∧
    (loadStylesheetCSSInWebview ⟨fun s => s, none, "\n"⟩ (some "") "p" ⟨["x"], none⟩).callbacks =
      [CbCall.ok "undefinedx\n"] := by
  decide

/-- C4 (amended): if the registry attribute is present and non-empty but
its content does not parse as JSON, every injection attempt invokes the
callback with the parse error and performs no file read (hence no
minification and no insertion). -/
theorem c4_malformed_registry (env : Env) (tr : StreamTrace) (s p : String)
    (hne : s ≠ "") (hparse : jsonParseStringArr s = none) :
    loadStylesheetCSSInWebview env (some s) p tr =
      { actions := [], callbacks := [CbCall.err (JSError.parseError s)],
        attr := some s, threw := false } := by
  simp only [loadStylesheetCSSInWebview, if_neg hne, hparse]

/-- Witness for C4 (amended) on a concrete non-JSON attribute value. -/
theorem c4_malformed_registry_witness :
    (("nope" : String) ≠ "" ∧ jsonParseStringArr "nope" = none) ∧
    loadStylesheetCSSInWebview ⟨fun s => s, none, "\n"⟩ (some "nope") "p" ⟨["x"], none⟩ =
      { actions := [], callbacks := [CbCall.err (JSError.parseError "nope")],
        attr := some "nope", threw := false } :=
  ⟨⟨by decide, by decide⟩,
   c4_malformed_registry ⟨fun s => s, none, "\n"⟩ ⟨["x"], none⟩ "nope" "p"
     (by decide) (by decide)⟩

/-- Counterexample to C5 as stated: injecting the path `a\b` (one
backslash) into a fresh document succeeds, but the JSON text is
interpolated into a single-quoted JavaScript literal, which collapses the
`\\` escape; the stored attribute then parses back as the path
`a` + backspace, not `a\b`, so the registry does not contain exactly the
injected paths. -/
theorem c5_backslash_counterexample :
    (loadStylesheetCSSInWebview ⟨fun s => s, none, "\n"⟩ none "a\\b" ⟨["x"], none⟩).callbacks =
      [CbCall.ok "undefinedx\n"] ∧
    jsonParseStringArr
      (((loadStylesheetCSSInWebview ⟨fun s => s, none, "\n"⟩ none "a\\b"
          ⟨["x"], none⟩).attr).getD "") = some ["a\x08"] ∧
    ("a\x08" : String) ≠ "a\\b" := by
  decide

/-- C5 (amended): for sequential successful injections of distinct paths
made of printable characters other than `"`, `\` and `'` into a fresh
document, the final registry attribute parses as exactly those paths in
call order, each once; and a successful injection starting from a
well-formed registry writes back a superset of the registry it read. -/
theorem c5_registry_roundtrip :
    (∀ (env : Env) (tr : StreamTrace) (paths : List String),
      env.insertErr = none → tr.chunks ≠ [] → tr.err = none →
      paths ≠ [] → paths.Nodup → (∀ p ∈ paths, JsSafeStr p) →
      injectAll env tr none paths = some (jsonStringifyArr paths) ∧
      jsonParseStringArr (jsonStringifyArr paths) = some paths) ∧
    (∀ (env : Env) (tr : StreamTrace) (cur : List String) (p : String),
      env.insertErr = none → tr.chunks ≠ [] → tr.err = none →
      cur.Nodup → (∀ q ∈ cur, JsSafeStr q) → JsSafeStr p → p ∉ cur →
      ∃ l, jsonParseStringArr
          (((loadStylesheetCSSInWebview env (some (jsonStringifyArr cur)) p tr).attr).getD "")
          = some l ∧ ∀ x ∈ cur, x ∈ l) := by
  constructor
  · intro env tr paths hins hch herr hne hnd hsafe
    refine ⟨?_, jsonParse_stringify hsafe⟩
    have := injectAll_attr paths env tr [] none hins hch herr (Or.inl ⟨rfl, rfl⟩)
      (by simp) hsafe (by simpa using hnd) hne
    simpa using this
  · intro env tr cur p hins hch herr hnd hsafeCur hp hmem
    obtain ⟨css, hrun⟩ := load_success env tr cur p (some (jsonStringifyArr cur))
      hins hch herr (Or.inr rfl) hsafeCur hp hmem hnd
    have hsafeApp : ∀ q ∈ cur ++ [p], JsSafeStr q := by
      intro q hq
      rcases List.mem_append.mp hq with h | h
      · exact hsafeCur q h
      · rw [List.mem_singleton.mp h]; exact hp
    refine ⟨cur ++ [p], ?_, ?_⟩
    · rw [hrun]
      simpa using jsonParse_stringify hsafeApp
    · intro x hx
      simp [hx]

/-- Witness for C5 (amended): two concrete injections into a fresh
document. -/
theorem c5_registry_roundtrip_witness :
    ((["a", "b"] : List String) ≠ [] ∧ (["a", "b"] : List String).Nodup ∧
      (∀ p ∈ (["a", "b"] : List String), JsSafeStr p)) ∧
    injectAll ⟨fun s => s, none, "\n"⟩ ⟨["x"], none⟩ none ["a", "b"] =
      some (jsonStringifyArr ["a", "b"]) ∧
    jsonParseStringArr (jsonStringifyArr ["a", "b"]) = some ["a", "b"] :=
  ⟨⟨by decide, by decide, by decide⟩,
   c5_registry_roundtrip.1 ⟨fun s => s, none, "\n"⟩ ⟨["x"], none⟩ ["a", "b"]
     rfl (by decide) rfl (by decide) (by decide) (by decide)⟩

/-- Counterexample to C6 as stated: with ten elements, threshold `0.75`
and fixed count `10`, the source computes `Math.floor(10 - 0.25 * 10) = 7`
and inspects the element at 1-indexed position 7, while the spec's
`ceil` formula would inspect position 8; on a list where only those two
positions differ, the two disagree. -/
theorem c6_ceil_counterexample :
    didScrollIntoViewport [0, 0, 0, 0, 0, 0, 0, 100, 0, 0] 50 (3/4) 10 =
      ViewportResult.inView true ∧
    didScrollIntoViewportSpec [0, 0, 0, 0, 0, 0, 0, 100, 0, 0] 50 (3/4) 10 =
      ViewportResult.inView false := by
  constructor
  · have hf : (⌊((([(0:ℚ), 0, 0, 0, 0, 0, 0, 100, 0, 0] : List ℚ).length : ℚ))
        - (1 - 3/4) * 10⌋ : ℤ) = 7 := by norm_num
    have ht : ((6:ℤ).toNat) = 6 := rfl
    simp only [didScrollIntoViewport, hf]
    norm_num [ht]
  · have hf : (⌈((([(0:ℚ), 0, 0, 0, 0, 0, 0, 100, 0, 0] : List ℚ).length : ℚ))
        - (1 - 3/4) * 10⌉ : ℤ) = 8 := by norm_num [Int.ceil_eq_iff]
    have ht : ((7:ℤ).toNat) = 7 := rfl
    simp only [didScrollIntoViewportSpec, hf]
    norm_num [ht]

/-- C6 (amended): for every non-empty element list, threshold and fixed
count, `didScrollIntoViewport` computes its target index as
`floor(length - (1 - threshold) * fixedCount)` (not `ceil`) and, when that
index is within range, checks the element at that 1-indexed position
against the viewport height; with length 10, threshold `0.75` and fixed
count `10`, the target index is 7. -/
theorem c6_floor_target_index (tops : List ℚ) (H t f : ℚ) (i : ℤ)
    (hne : tops.length ≠ 0)
    (hi : i = ⌊(tops.length : ℚ) - (1 - t) * f⌋)
    (h1 : 1 ≤ i) (h2 : i ≤ (tops.length : ℤ)) :
    didScrollIntoViewport tops H t f =
      ViewportResult.inView (decide (tops.getD (i - 1).toNat 0 ≤ H)) := by
  subst hi
  have h0 : 0 ≤ ⌊(tops.length : ℚ) - (1 - t) * f⌋ - 1 := by omega
  have hlt : (⌊(tops.length : ℚ) - (1 - t) * f⌋ - 1).toNat < tops.length := by omega
  unfold didScrollIntoViewport
  rw [if_neg hne, dif_pos ⟨h0, hlt⟩]
  have hget : tops.get ⟨(⌊(tops.length : ℚ) - (1 - t) * f⌋ - 1).toNat, hlt⟩ =
      tops.getD (⌊(tops.length : ℚ) - (1 - t) * f⌋ - 1).toNat 0 := by
    rw [List.getD_eq_get?, List.get?_eq_get hlt]
    rfl
  rw [hget]

/-- Witness for C6 (amended) at the concrete boundary instance of the
claim: length 10, threshold `0.75`, fixed count `10`, target index 7. -/
theorem c6_floor_target_index_witness :
    (([0, 0, 0, 0, 0, 0, 0, 100, 0, 0] : List ℚ).length ≠ 0 ∧
      (7:ℤ) = ⌊((([(0:ℚ), 0, 0, 0, 0, 0, 0, 100, 0, 0] : List ℚ).length : ℚ)) - (1 - 3/4) * 10⌋ ∧
      (1:ℤ) ≤ 7 ∧ (7:ℤ) ≤ (([0, 0, 0, 0, 0, 0, 0, 100, 0, 0] : List ℚ).length : ℤ)) ∧
    didScrollIntoViewport [0, 0, 0, 0, 0, 0, 0, 100, 0, 0] 50 (3/4) 10 =
      ViewportResult.inView
        (decide (([0, 0, 0, 0, 0, 0, 0, 100, 0, 0] : List ℚ).getD ((7:ℤ) - 1).toNat 0 ≤ 50)) :=
  ⟨⟨by decide, by norm_num, by decide, by decide⟩,
   c6_floor_target_index [0, 0, 0, 0, 0, 0, 0, 100, 0, 0] 50 (3/4) 10 7
     (by decide) (by norm_num) (by decide) (by decide)⟩

/-- C7: `formatDuration` renders a zero-length duration as the infinity
symbol, renders 3661 seconds as `"1:01:01"`, and never returns the string
`"0"`. -/
theorem c7_format_duration :
    formatDuration 0 = "∞" ∧ formatDuration 3661 = "1:01:01" ∧
    ∀ n : Nat, formatDuration n ≠ "0" := by
  refine ⟨by decide, by decide, ?_⟩
  intro n
  simp only [formatDuration]
  split
  · decide
  · next h => exact h

/-- C8: calling `addClassList` or `removeClassList` with an empty class
array leaves the class attribute of every matched element — and hence the
whole document state — unchanged, for every selector. -/
theorem c8_empty_classlist_noop (sel : DomElement → Bool) (doc : List DomElement) :
    addClassList sel [] doc = doc ∧ removeClassList sel [] doc = doc := by
  constructor <;>
    simp [addClassList, removeClassList, classListAdd, classListRemove]

/-- C10: when the deferred action of `remove` fires, an element with no
parent is a no-op (the model is total, so no error is raised); with a
parent whose child list contains the element once, exactly that element is
detached: it is gone, every other child is retained, and nothing is
added. -/
theorem c10_remove_safe :
    (∀ (e d : Nat), remove e d none = none) ∧
    (∀ (e d : Nat) (cs : List Nat), cs.Nodup → e ∈ cs →
      e ∉ (remove e d (some cs)).getD [] ∧
      (∀ x ∈ cs, x ≠ e → x ∈ (remove e d (some cs)).getD []) ∧
      (∀ x ∈ (remove e d (some cs)).getD [], x ∈ cs)) := by
  constructor
  · intro e d
    rfl
  · intro e d cs hnd hmem
    refine ⟨?_, ?_, ?_⟩
    · show e ∉ cs.erase e
      intro hc
      exact ((List.Nodup.mem_erase_iff hnd).mp hc).1 rfl
    · intro x hx hne
      show x ∈ cs.erase e
      exact (List.Nodup.mem_erase_iff hnd).mpr ⟨hne, hx⟩
    · intro x hx
      exact List.erase_subset _ _ hx

/-- Witness for C10 on a concrete three-child parent. -/
theorem c10_remove_safe_witness :
    (([1, 2, 3] : List Nat).Nodup ∧ 2 ∈ ([1, 2, 3] : List Nat)) ∧
    (2 ∉ (remove 2 0 (some [1, 2, 3])).getD [] ∧
     (∀ x ∈ ([1, 2, 3] : List Nat), x ≠ 2 → x ∈ (remove 2 0 (some [1, 2, 3])).getD []) ∧
     (∀ x ∈ (remove 2 0 (some [1, 2, 3])).getD [], x ∈ ([1, 2, 3] : List Nat))) :=
  ⟨⟨by decide, by decide⟩, c10_remove_safe.2 2 0 [1, 2, 3] (by decide) (by decide)⟩

/-- Counterexample to C9 as stated: with a single element and the default
threshold `0.75` and default fixed count `length = 1`, the target index is
`floor(1 - 0.25) = 0`, so the source accesses JavaScript index `-1`
(`undefined`) and calling `getBoundingClientRect` on it throws. -/
theorem c9_singleton_counterexample :
    didScrollIntoViewport [(0:ℚ)] 0 (3/4) (([(0:ℚ)] : List ℚ).length : ℚ) =
      ViewportResult.threw := by
  have hf : (⌊((([(0:ℚ)] : List ℚ).length : ℚ)) -
      (1 - 3/4) * (([(0:ℚ)] : List ℚ).length : ℚ)⌋ : ℤ) = 0 := by norm_num
  simp only [didScrollIntoViewport, hf]
  norm_num

/-- C9 (amended): for every element list of length at least 2 with the
default threshold `0.75` and default fixed count `length`, the accessed
index lies within `0 .. length - 1`, so the bounding-rectangle lookup is
performed on an existing element and the function returns a result without
faulting. -/
theorem c9_index_in_range (tops : List ℚ) (H : ℚ) (h2 : 2 ≤ tops.length) :
    ∃ b, didScrollIntoViewport tops H (3/4) (tops.length : ℚ) =
      ViewportResult.inView b := by
  have hne : tops.length ≠ 0 := by omega
  have hL : (2:ℚ) ≤ (tops.length : ℚ) := by exact_mod_cast h2
  have h1 : (1:ℤ) ≤ ⌊(tops.length : ℚ) - (1 - 3/4) * (tops.length : ℚ)⌋ := by
    rw [Int.le_floor]
    push_cast
    linarith
  have hub : ⌊(tops.length : ℚ) - (1 - 3/4) * (tops.length : ℚ)⌋ ≤ (tops.length : ℤ) := by
    have hle : (tops.length : ℚ) - (1 - 3/4) * (tops.length : ℚ) ≤ (tops.length : ℚ) := by
      linarith
    calc ⌊(tops.length : ℚ) - (1 - 3/4) * (tops.length : ℚ)⌋
        ≤ ⌊(tops.length : ℚ)⌋ := Int.floor_le_floor hle
      _ = (tops.length : ℤ) := Int.floor_natCast _
  have h0 : 0 ≤ ⌊(tops.length : ℚ) - (1 - 3/4) * (tops.length : ℚ)⌋ - 1 := by omega
  have hlt : (⌊(tops.length : ℚ) - (1 - 3/4) * (tops.length : ℚ)⌋ - 1).toNat < tops.length := by
    omega
  refine ⟨decide (tops.get ⟨(⌊(tops.length : ℚ) - (1 - 3/4) * (tops.length : ℚ)⌋ - 1).toNat, hlt⟩ ≤ H), ?_⟩
  unfold didScrollIntoViewport
  rw [if_neg hne, dif_pos ⟨h0, hlt⟩]

/-- Witness for C9 (amended) on a concrete two-element list. -/
theorem c9_index_in_range_witness :
    2 ≤ ([(0:ℚ), 0] : List ℚ).length ∧
    ∃ b, didScrollIntoViewport [(0:ℚ), 0] 0 (3/4) (([(0:ℚ), 0] : List ℚ).length : ℚ) =
      ViewportResult.inView b :=
  ⟨by decide, c9_index_in_range [(0:ℚ), 0] 0 (by decide)⟩

end DomTools
